import Mathlib

/-!
Verification of the BKT-Xhydra core models: the Bayesian Knowledge Tracing
mastery estimator (`src/models/bkt_model.py`), the forgetting-curve review
scheduler (`src/models/forgetting_curve.py`) and the quota-based recommender
(`src/models/recommender.py`), shallowly embedded in Lean.

Conventions of the embedding:
* Python floats are modelled as exact rationals (`ℚ`) except where the code
  computes a transcendental (`np.exp`), which is modelled over `ℝ`.
* A Python `datetime` instant is an integer number of seconds (`ℤ`);
  `timedelta(days = d)` adds `86400 * d` seconds.
* A Python dict is an association list (for `calculate_mastery`, whose
  iteration order matters for the output list) or a function to `Option`
  (for the review-history mapping, where only lookup is observed).
* An attempt record is reduced to the data the code reads from it:
  `ans['is_correct']`, i.e. an `Option Bool` (`none` models a record whose
  `'is_correct'` key is missing, which makes the Python code raise `KeyError`).
-/

namespace BKTXhydra

/-! ## BKT model (`src/models/bkt_model.py`) -/

/-- `BKTModel.p_L0`: initial mastery probability. -/
def p_L0 : ℚ := 1/10

/-- `BKTModel.p_T`: learning (transit) probability. -/
def p_T : ℚ := 3/10

/-- `BKTModel.p_G`: guess probability. -/
def p_G : ℚ := 1/10

/-- `BKTModel.p_S`: slip probability. -/
def p_S : ℚ := 1/10

/-- One iteration of the loop body in `BKTModel.calculate_mastery`, for general
parameters: the Bayes update on the observed correctness followed by the
learning-opportunity update `p ← p + (1 - p) * p_T`. -/
def bktStepP (pS pG pT : ℚ) (p : ℚ) (is_correct : Bool) : ℚ :=
  let p1 :=
    if is_correct then
      (p * (1 - pS)) / (p * (1 - pS) + (1 - p) * pG)
    else
      (p * pS) / (p * pS + (1 - p) * (1 - pG))
  p1 + (1 - p1) * pT

/-- The loop body of `BKTModel.calculate_mastery` at the model's (fixed)
default parameters. -/
def bktStep (p : ℚ) (is_correct : Bool) : ℚ :=
  bktStepP p_S p_G p_T p is_correct

/-- The full fold of `BKTModel.calculate_mastery` over one question's answer
list, starting from `p_L0`. -/
def masteryFold (answers : List Bool) : ℚ :=
  answers.foldl bktStep p_L0

/-- The denominator of the Bayes update on a correct answer. -/
def bktDenCorrect (pS pG p : ℚ) : ℚ :=
  p * (1 - pS) + (1 - p) * pG

/-- The denominator of the Bayes update on an incorrect answer. -/
def bktDenIncorrect (pS pG p : ℚ) : ℚ :=
  p * pS + (1 - p) * (1 - pG)

/-- The per-question output record of `BKTModel.calculate_mastery`
(`mastery[q_id]`). -/
structure MasteryState where
  mastery_probability : ℚ
  correct_rate : ℚ
  attempt_count : ℕ
  deriving DecidableEq, Repr

/-- The `mastery[q_id] = {...}` entry built by `BKTModel.calculate_mastery`
for one question from its (well-formed) answer list. -/
def mkMasteryState (answers : List Bool) : MasteryState :=
  { mastery_probability := masteryFold answers
    correct_rate := (answers.countP id : ℚ) / (answers.length : ℚ)
    attempt_count := answers.length }

/-- `BKTModel.calculate_mastery` on a history whose records are all
well-formed (every record carries its `'is_correct'` flag): questions with an
empty answer list are skipped, each remaining question is mapped to its
`MasteryState`. -/
def calculate_mastery (answer_history : List (String × List Bool)) :
    List (String × MasteryState) :=
  (answer_history.filter (fun qa => !qa.2.isEmpty)).map
    (fun qa => (qa.1, mkMasteryState qa.2))

/-- `ans['is_correct']` on a record that may be missing the key: Python raises
`KeyError` at the first missing key, which aborts the whole call. This helper
extracts the correctness flags of one question's answer list or fails. -/
def extractCorrect : List (Option Bool) → Except String (List Bool)
  | [] => .ok []
  | none :: _ => .error "KeyError: is_correct"
  | some b :: rest => (extractCorrect rest).map (fun bs => b :: bs)

/-- `BKTModel.calculate_mastery` on raw records (each possibly missing its
`'is_correct'` key). A missing key raises `KeyError`, which propagates out of
the whole call: no per-question result survives. -/
def calculate_masteryE (answer_history : List (String × List (Option Bool))) :
    Except String (List (String × MasteryState)) :=
  match answer_history with
  | [] => .ok []
  | (q, answers) :: rest =>
    if answers.isEmpty then calculate_masteryE rest
    else do
      let bs ← extractCorrect answers
      let ms ← calculate_masteryE rest
      .ok ((q, mkMasteryState bs) :: ms)

/-- Truth of `Except.isOk = false`, i.e. the call raised. -/
def exceptIsError : Except String α → Bool
  | .error _ => true
  | .ok _ => false

/-! ## Forgetting curve (`src/models/forgetting_curve.py`) -/

/-- `ForgettingCurve.decay_rate`. -/
noncomputable def decay_rate : ℝ := 1/10

/-- `ForgettingCurve.review_intervals` (days). -/
def review_intervals : List ℕ := [1, 2, 4, 7, 15, 30]

/-- One entry of the review-history dict built by
`ForgettingCurve.update_review_history`. -/
structure ReviewState where
  review_count : ℕ
  last_review_time : Option ℤ
  next_review_time : Option ℤ
  memory_strength : ℝ
  correct_count : ℕ
  total_count : ℕ

/-- The fresh entry created for a question id not yet in the review history. -/
noncomputable def initReviewState : ReviewState :=
  { review_count := 0, last_review_time := none, next_review_time := none,
    memory_strength := 0, correct_count := 0, total_count := 0 }

/-- `ForgettingCurve.calculate_memory_strength`. `(datetime.now() - t).days`
is floor division of the elapsed seconds by 86400 (`Int.fdiv`); `np.exp` is
`Real.exp`. Returns `0.0` when `last_review_time` is `None`. -/
noncomputable def calculate_memory_strength (now : ℤ) (last_review_time : Option ℤ)
    (review_count : ℕ) : ℝ :=
  match last_review_time with
  | none => 0
  | some t =>
    let days_passed : ℤ := Int.fdiv (now - t) 86400
    let base_strength : ℝ := Real.exp (-decay_rate * (days_passed : ℝ))
    let review_factor : ℝ := 1 - Real.exp (-(review_count : ℝ) * (1/2))
    base_strength * (7/10 + 3/10 * review_factor)

/-- `ForgettingCurve.get_next_review_time`: pick the interval indexed by
`review_count`, or the last interval once `review_count` runs past the table,
and add that many days to `now`. -/
def get_next_review_time (now : ℤ) (review_count : ℕ) : ℤ :=
  let interval : ℕ :=
    if review_intervals.length ≤ review_count then
      review_intervals.getLastD 0
    else
      review_intervals.getD review_count 0
  now + 86400 * (interval : ℤ)

/-- Modelled from the spec's formula for the same operation (for the
refinement comparison of claim C5):
`interval_days = review_intervals[min(review_count, len(review_intervals)-1)]`,
returning `now + interval_days` days. -/
def next_review_time_of_spec (now : ℤ) (review_count : ℕ) : ℤ :=
  now + 86400 *
    ((review_intervals.getD (min review_count (review_intervals.length - 1)) 0 : ℕ) : ℤ)

/-- `ForgettingCurve.update_review_history`: insert a fresh entry for an
unseen question id, then bump the counters, stamp `last_review_time := now`,
derive `next_review_time` from the post-increment `review_count` and recompute
`memory_strength`. Only the entry of `question_id` changes. -/
noncomputable def update_review_history (now : ℤ) (question_id : String)
    (is_correct : Bool) (review_history : String → Option ReviewState) :
    String → Option ReviewState :=
  let history := (review_history question_id).getD initReviewState
  let history1 : ReviewState :=
    { review_count := history.review_count + 1
      total_count := history.total_count + 1
      correct_count := history.correct_count + (if is_correct then 1 else 0)
      last_review_time := some now
      next_review_time := some (get_next_review_time now (history.review_count + 1))
      memory_strength := calculate_memory_strength now (some now) (history.review_count + 1) }
  fun q => if q = question_id then some history1 else review_history q

/-! ## Recommender (`src/models/recommender.py`) -/

/-- One entry of `user_history`: the usage counters kept per question index. -/
structure QStats where
  wrong_count : ℕ
  view_answer_count : ℕ
  total_time : ℚ

/-- The comparison realising Python's
`sorted(old_questions, key = (-wrong_count, -view_answer_count, -total_time))`:
ascending in the negated key, i.e. descending lexicographically in
`(wrong_count, view_answer_count, total_time)`. -/
def statDescLe (a b : QStats) : Bool :=
  decide (b.wrong_count < a.wrong_count) ||
  (decide (b.wrong_count = a.wrong_count) &&
    (decide (b.view_answer_count < a.view_answer_count) ||
     (decide (b.view_answer_count = a.view_answer_count) &&
      decide (b.total_time ≤ a.total_time))))

/-- `generate_recommendation` (the quota-based selection policy, identical in
`Recommender.generate_recommendation` and the module-level function): the
universe `range total_questions` is split into never-attempted and attempted
ids, the attempted ids are sorted descending by their counters,
`int(num_questions * 0.6)` slots (exact for the integer ranges in play, hence
`num_questions * 3 / 5`) go to a random sample of the never-attempted ids and
the rest to the top of the sorted attempted ids, the concatenation is
shuffled, topped up first from the remaining attempted then from the remaining
never-attempted ids, and truncated to `num_questions`. The ambient random
source is abstracted into the `sample` and `shuffle` arguments. -/
def generate_recommendation (sample : List ℕ → ℕ → List ℕ)
    (shuffle : List ℕ → List ℕ) (total_questions num_questions : ℕ)
    (user_history : ℕ → Option QStats) : List ℕ :=
  let all_questions := List.range total_questions
  let new_questions := all_questions.filter (fun i => (user_history i).isNone)
  let old_questions := all_questions.filter (fun i => (user_history i).isSome)
  let old_questions_sorted := old_questions.mergeSort (fun i j =>
    statDescLe ((user_history i).getD ⟨0, 0, 0⟩) ((user_history j).getD ⟨0, 0, 0⟩))
  let num_new := num_questions * 3 / 5
  let num_old := num_questions - num_new
  let selected_new := sample new_questions (min num_new new_questions.length)
  let selected_old := old_questions_sorted.take num_old
  let question_order0 := shuffle (selected_new ++ selected_old)
  let question_order1 := question_order0 ++
    (old_questions_sorted.filter (fun i => decide (i ∉ question_order0))).take
      (num_questions - question_order0.length)
  let question_order2 := question_order1 ++
    (new_questions.filter (fun i => decide (i ∉ question_order1))).take
      (num_questions - question_order1.length)
  question_order2.take num_questions

/-- Contract of `random.sample(l, k)` for `k ≤ len(l)` on a duplicate-free
population: `k` distinct elements of `l`. -/
def SampleOK (sample : List ℕ → ℕ → List ℕ) : Prop :=
  ∀ l k, k ≤ l.length → l.Nodup →
    (sample l k).length = k ∧ (sample l k).Nodup ∧ ∀ x ∈ sample l k, x ∈ l

/-- Contract of `random.shuffle`: a permutation of its input. -/
def ShuffleOK (shuffle : List ℕ → List ℕ) : Prop :=
  ∀ l, (shuffle l).Perm l

/-! ### Helper lemmas about the BKT update -/

lemma bktDenCorrect_pos (pS pG : ℚ) (hS1 : pS < 1) (hG0 : 0 < pG) (p : ℚ)
    (hp0 : 0 < p) (hp1 : p < 1) : 0 < bktDenCorrect pS pG p := by
  unfold bktDenCorrect; nlinarith

lemma bktDenIncorrect_pos (pS pG : ℚ) (hS0 : 0 < pS) (hG1 : pG < 1) (p : ℚ)
    (hp0 : 0 < p) (hp1 : p < 1) : 0 < bktDenIncorrect pS pG p := by
  unfold bktDenIncorrect; nlinarith

lemma bktStepP_bounds (pS pG pT : ℚ) (hS0 : 0 < pS) (hS1 : pS < 1) (hG0 : 0 < pG)
    (hG1 : pG < 1) (hT0 : 0 < pT) (hT1 : pT < 1) (p : ℚ) (hp0 : 0 < p) (hp1 : p < 1)
    (c : Bool) : 0 < bktStepP pS pG pT p c ∧ bktStepP pS pG pT p c < 1 := by
  unfold bktStepP
  have h1 : ∀ q : ℚ, 0 < q → q < 1 → 0 < q + (1 - q) * pT ∧ q + (1 - q) * pT < 1 := by
    intro q h0 h2
    constructor <;> nlinarith
  cases c with
  | false =>
    rw [if_neg (by decide)]
    have hden : 0 < p * pS + (1 - p) * (1 - pG) := by nlinarith
    exact h1 _ (div_pos (by nlinarith) hden) ((div_lt_one hden).mpr (by nlinarith))
  | true =>
    rw [if_pos rfl]
    have hden : 0 < p * (1 - pS) + (1 - p) * pG := by nlinarith
    exact h1 _ (div_pos (by nlinarith) hden) ((div_lt_one hden).mpr (by nlinarith))

lemma bktFoldP_bounds (pS pG pT : ℚ) (hS0 : 0 < pS) (hS1 : pS < 1) (hG0 : 0 < pG)
    (hG1 : pG < 1) (hT0 : 0 < pT) (hT1 : pT < 1) :
    ∀ (l : List Bool) (p : ℚ), 0 < p → p < 1 →
      0 < l.foldl (bktStepP pS pG pT) p ∧ l.foldl (bktStepP pS pG pT) p < 1 := by
  intro l
  induction l with
  | nil => intro p h0 h1; exact ⟨h0, h1⟩
  | cons c rest ih =>
    intro p h0 h1
    have hs := bktStepP_bounds pS pG pT hS0 hS1 hG0 hG1 hT0 hT1 p h0 h1 c
    exact ih _ hs.1 hs.2

lemma bktFold_bounds (l : List Bool) (p : ℚ) (h0 : 0 < p) (h1 : p < 1) :
    0 < l.foldl bktStep p ∧ l.foldl bktStep p < 1 := by
  have := bktFoldP_bounds p_S p_G p_T (by norm_num [p_S]) (by norm_num [p_S])
    (by norm_num [p_G]) (by norm_num [p_G]) (by norm_num [p_T]) (by norm_num [p_T])
    l p h0 h1
  simpa [bktStep] using this

lemma bktStep_true_mono (p : ℚ) (hp0 : 0 < p) (hp1 : p ≤ 1) : p ≤ bktStep p true := by
  unfold bktStep bktStepP p_S p_G p_T
  rw [if_pos rfl]
  have hD : 0 < p * (1 - 1/10) + (1 - p) * (1/10) := by nlinarith
  have hq1 : p * (1 - 1/10) / (p * (1 - 1/10) + (1 - p) * (1/10)) ≤ 1 := by
    rw [div_le_one hD]; nlinarith
  have hqp : p ≤ p * (1 - 1/10) / (p * (1 - 1/10) + (1 - p) * (1/10)) := by
    rw [le_div_iff₀ hD]; nlinarith
  nlinarith

lemma bktStep_false_bounds (p : ℚ) (hp0 : 0 < p) (hp1 : p < 2/5) :
    0 < bktStep p false ∧ bktStep p false < 2/5 := by
  unfold bktStep bktStepP p_S p_G p_T
  rw [if_neg (by decide)]
  have hD : 0 < p * (1/10) + (1 - p) * (1 - 1/10) := by nlinarith
  have hq0 : 0 < p * (1/10) / (p * (1/10) + (1 - p) * (1 - 1/10)) :=
    div_pos (by nlinarith) hD
  have hq7 : p * (1/10) / (p * (1/10) + (1 - p) * (1 - 1/10)) < 1/7 := by
    rw [div_lt_iff₀ hD]; nlinarith
  constructor <;> nlinarith

lemma bktFold_false_bounds :
    ∀ (l : List Bool), (∀ b ∈ l, b = false) → ∀ p : ℚ, 0 < p → p < 2/5 →
      0 < l.foldl bktStep p ∧ l.foldl bktStep p < 2/5 := by
  intro l
  induction l with
  | nil => intro _ p h0 h1; exact ⟨h0, h1⟩
  | cons c rest ih =>
    intro hl p h0 h1
    have hc : c = false := hl c (List.mem_cons_self c rest)
    subst hc
    have hs := bktStep_false_bounds p h0 h1
    exact ih (fun b hb => hl b (List.mem_cons_of_mem _ hb)) _ hs.1 hs.2

/-! ### Claim C1 -/

/-- C1 (amended): for every question with a non-empty attempt sequence,
`calculate_mastery` emits a `MasteryState` whose `mastery_probability` is the
fold of the BKT update (Bayes posterior on the observation, then
`p ← p + (1 - p) * p_T`) over the attempts in order starting from `p_L0`;
with the default parameters the history `[correct, correct, correct]` yields
exactly `107337/107680 ≈ 0.9968` (not `≈ 0.959` as the spec states). -/
theorem calculate_mastery_is_bkt_fold (answer_history : List (String × List Bool))
    (q : String) (answers : List Bool)
    (hmem : (q, answers) ∈ answer_history) (hne : answers ≠ []) :
    (q, mkMasteryState answers) ∈ calculate_mastery answer_history ∧
    (mkMasteryState answers).mastery_probability = answers.foldl bktStep p_L0 ∧
    masteryFold [true, true, true] = 107337 / 107680 := by
  refine ⟨?_, rfl, ?_⟩
  · unfold calculate_mastery
    exact List.mem_map.mpr ⟨(q, answers),
      List.mem_filter.mpr ⟨hmem, by simpa using hne⟩, rfl⟩
  · norm_num [masteryFold, bktStep, bktStepP, p_L0, p_S, p_G, p_T, List.foldl]

/-- Witness for C1: the fold theorem applied to the one-question history
`{"q1": [correct, correct, correct]}`. -/
theorem calculate_mastery_is_bkt_fold_witness :
    ("q1", mkMasteryState [true, true, true]) ∈
      calculate_mastery [("q1", [true, true, true])] ∧
    (mkMasteryState [true, true, true]).mastery_probability =
      [true, true, true].foldl bktStep p_L0 ∧
    masteryFold [true, true, true] = 107337 / 107680 :=
  calculate_mastery_is_bkt_fold [("q1", [true, true, true])] "q1" [true, true, true]
    (by simp) (by simp)

/-- Counterexample to C1 as stated: with the default parameters, the history
`[correct, correct, correct]` yields a mastery probability exceeding `0.989`,
so it is not `≈ 0.959` (it is `107337/107680 ≈ 0.9968`). -/
theorem three_correct_mastery_exceeds_0989 :
    959/1000 + 3/100 < masteryFold [true, true, true] := by
  norm_num [masteryFold, bktStep, bktStepP, p_L0, p_S, p_G, p_T, List.foldl]

/-! ### Claim C3 -/

/-- C3: on an attempt sequence consisting entirely of correct answers, the
running mastery probability of the BKT fold is non-decreasing step over step. -/
theorem bkt_all_correct_monotone (l : List Bool) (hl : ∀ b ∈ l, b = true) (n : ℕ) :
    (l.take n).foldl bktStep p_L0 ≤ (l.take (n+1)).foldl bktStep p_L0 := by
  rcases le_or_lt l.length n with h | h
  · rw [List.take_of_length_le h, List.take_of_length_le (h.trans (Nat.le_succ n))]
  · rw [List.take_succ]
    have hget : l[n]? = some true := by
      rw [List.getElem?_eq_getElem h]
      exact congrArg some (hl _ (List.getElem_mem h))
    rw [hget]
    simp only [Option.toList, List.foldl_append, List.foldl_cons, List.foldl_nil]
    have hb := bktFold_bounds (l.take n) p_L0 (by norm_num [p_L0]) (by norm_num [p_L0])
    exact bktStep_true_mono _ hb.1 hb.2.le

/-- Witness for C3: two correct attempts, step from the first to the second. -/
theorem bkt_all_correct_monotone_witness :
    (([true, true] : List Bool).take 1).foldl bktStep p_L0 ≤
      (([true, true] : List Bool).take 2).foldl bktStep p_L0 :=
  bkt_all_correct_monotone [true, true] (by decide) 1

/-! ### Claim C7 -/

/-- C7: on an attempt sequence consisting entirely of incorrect answers, with
the default parameters the running mastery probability stays strictly below
`p_L0 + p_T = 0.4` at every step. -/
theorem bkt_all_incorrect_bounded (l : List Bool) (hl : ∀ b ∈ l, b = false) (n : ℕ) :
    (l.take n).foldl bktStep p_L0 < p_L0 + p_T := by
  have h25 : p_L0 + p_T = 2/5 := by norm_num [p_L0, p_T]
  rw [h25]
  exact (bktFold_false_bounds (l.take n)
    (fun b hb => hl b (List.take_subset n l hb)) p_L0
    (by norm_num [p_L0]) (by norm_num [p_L0])).2

/-- Witness for C7: three incorrect attempts, bound after the second step. -/
theorem bkt_all_incorrect_bounded_witness :
    (([false, false, false] : List Bool).take 2).foldl bktStep p_L0 < p_L0 + p_T :=
  bkt_all_incorrect_bounded [false, false, false] (by decide) 2

/-! ### Claim C9 -/

/-- C9: for all BKT parameters in `(0,1)` and every attempt sequence, the
running mastery probability stays strictly within `(0,1)` after every update
step, and both Bayes-update denominators are strictly positive at every
reachable probability (no division by zero). -/
theorem bkt_fold_safety (pI pT pG pS : ℚ)
    (hI0 : 0 < pI) (hI1 : pI < 1) (hT0 : 0 < pT) (hT1 : pT < 1)
    (hG0 : 0 < pG) (hG1 : pG < 1) (hS0 : 0 < pS) (hS1 : pS < 1)
    (l : List Bool) (n : ℕ) :
    0 < (l.take n).foldl (bktStepP pS pG pT) pI ∧
    (l.take n).foldl (bktStepP pS pG pT) pI < 1 ∧
    0 < bktDenCorrect pS pG ((l.take n).foldl (bktStepP pS pG pT) pI) ∧
    0 < bktDenIncorrect pS pG ((l.take n).foldl (bktStepP pS pG pT) pI) := by
  have hb := bktFoldP_bounds pS pG pT hS0 hS1 hG0 hG1 hT0 hT1 (l.take n) pI hI0 hI1
  exact ⟨hb.1, hb.2, bktDenCorrect_pos pS pG hS1 hG0 _ hb.1 hb.2,
    bktDenIncorrect_pos pS pG hS0 hG1 _ hb.1 hb.2⟩

/-- Witness for C9: default parameters, history `[correct, incorrect, correct]`,
after two steps. -/
theorem bkt_fold_safety_witness :
    0 < (([true, false, true] : List Bool).take 2).foldl (bktStepP (1/10) (1/10) (3/10)) (1/10) ∧
    (([true, false, true] : List Bool).take 2).foldl (bktStepP (1/10) (1/10) (3/10)) (1/10) < 1 ∧
    0 < bktDenCorrect (1/10) (1/10)
      ((([true, false, true] : List Bool).take 2).foldl (bktStepP (1/10) (1/10) (3/10)) (1/10)) ∧
    0 < bktDenIncorrect (1/10) (1/10)
      ((([true, false, true] : List Bool).take 2).foldl (bktStepP (1/10) (1/10) (3/10)) (1/10)) :=
  bkt_fold_safety (1/10) (3/10) (1/10) (1/10) (by norm_num) (by norm_num)
    (by norm_num) (by norm_num) (by norm_num) (by norm_num) (by norm_num) (by norm_num)
    [true, false, true] 2

/-! ### Helper lemmas about the forgetting curve and malformed records -/

lemma le_get_next_review_time (now : ℤ) (rc : ℕ) :
    now ≤ get_next_review_time now rc := by
  simp only [get_next_review_time]
  have h : (0:ℤ) ≤ 86400 * ((if review_intervals.length ≤ rc then
      review_intervals.getLastD 0 else review_intervals.getD rc 0 : ℕ) : ℤ) := by
    positivity
  linarith

lemma extractCorrect_of_missing : ∀ (answers : List (Option Bool)), none ∈ answers →
    extractCorrect answers = .error "KeyError: is_correct"
  | [], h => absurd h (List.not_mem_nil none)
  | none :: _, _ => rfl
  | some b :: rest, h => by
      have hr : none ∈ rest := by simpa using h
      rw [extractCorrect, extractCorrect_of_missing rest hr]
      rfl

lemma calculate_masteryE_cons (q : String) (answers : List (Option Bool))
    (rest : List (String × List (Option Bool))) :
    calculate_masteryE ((q, answers) :: rest) =
      if answers.isEmpty then calculate_masteryE rest
      else (extractCorrect answers).bind (fun bs =>
        (calculate_masteryE rest).bind
          (fun ms => Except.ok ((q, mkMasteryState bs) :: ms))) := rfl

/-! ### Claim C4 -/

/-- C4: after any call to `update_review_history`, the stored
`next_review_time` of the updated question is at least its stored
`last_review_time` — a review is never scheduled in the past relative to the
review that produced it. -/
theorem update_review_next_ge_last (now : ℤ) (qid : String) (is_correct : Bool)
    (rh : String → Option ReviewState) (s : ReviewState) (tl tn : ℤ)
    (hs : update_review_history now qid is_correct rh qid = some s)
    (hl : s.last_review_time = some tl) (hn : s.next_review_time = some tn) :
    tl ≤ tn := by
  simp only [update_review_history] at hs
  rw [if_pos trivial] at hs
  injection hs with h
  subst h
  simp only [] at hl hn
  obtain rfl := Option.some.inj hl
  obtain rfl := Option.some.inj hn
  exact le_get_next_review_time _ _

/-- Witness for C4: recording a first correct review of question `"q1"` at
instant `0` schedules the next review at `0 + 2` days `= 172800` seconds. -/
theorem update_review_next_ge_last_witness : (0:ℤ) ≤ 172800 :=
  update_review_next_ge_last 0 "q1" true (fun _ => none)
    ⟨1, some 0, some (get_next_review_time 0 1), calculate_memory_strength 0 (some 0) 1, 1, 1⟩
    0 172800 rfl rfl rfl

/-! ### Claim C5 -/

/-- C5: `get_next_review_time` adds
`review_intervals[min(review_count, len(review_intervals)-1)]` days to `now`
(the spec's formula), and in particular at `review_count = 7` with the default
table it returns `now + 30` days — the last interval repeats past the table. -/
theorem get_next_review_time_eq_spec (now : ℤ) (review_count : ℕ) :
    get_next_review_time now review_count = next_review_time_of_spec now review_count ∧
    get_next_review_time now 7 = now + 86400 * 30 := by
  constructor
  · unfold get_next_review_time next_review_time_of_spec review_intervals
    rcases Nat.lt_or_ge review_count 6 with h | h
    · interval_cases review_count <;> rfl
    · have h6 : min review_count (6 - 1) = 5 := by omega
      rw [if_pos (by simpa using h)]
      simp [h6]
  · rfl

/-! ### Claim C6 -/

/-- C6 (amended): `calculate_memory_strength` returns exactly `0.0` whenever
`last_review_time` is absent; but with `review_count = 0` and a present
`last_review_time` it does not return `0.0` — at zero elapsed days it returns
`0.7`. -/
theorem memory_strength_none_eq_zero (now : ℤ) (review_count : ℕ) :
    calculate_memory_strength now none review_count = 0 ∧
    calculate_memory_strength 0 (some 0) 0 = 7/10 := by
  constructor
  · rfl
  · simp [calculate_memory_strength, decay_rate]

/-- Counterexample to C6 as stated: with a present `last_review_time` and
`review_count = 0` the result is `0.7`, not `0.0`. -/
theorem memory_strength_zero_reviews_nonzero :
    calculate_memory_strength 0 (some 0) 0 ≠ 0 := by
  have h : calculate_memory_strength 0 (some 0) 0 = 7/10 := by
    simp [calculate_memory_strength, decay_rate]
  rw [h]
  norm_num

/-! ### Claim C8 -/

/-- C8 (amended): a history containing a record missing its `'is_correct'`
flag makes the whole `calculate_mastery` call raise `KeyError` — there is no
`InvalidAttemptRecord` error kind, and the one bad record aborts processing of
the entire remaining history (no per-question result survives). -/
theorem calculate_masteryE_malformed_aborts
    (answer_history : List (String × List (Option Bool)))
    (q : String) (answers : List (Option Bool))
    (hmem : (q, answers) ∈ answer_history) (hbad : none ∈ answers) :
    exceptIsError (calculate_masteryE answer_history) = true := by
  induction answer_history with
  | nil => cases hmem
  | cons qa rest ih =>
    rcases List.mem_cons.mp hmem with heq | hmem2
    · obtain rfl := heq.symm
      have hne : answers.isEmpty = false := by
        cases answers with
        | nil => cases hbad
        | cons a l => rfl
      rw [calculate_masteryE_cons, hne, extractCorrect_of_missing answers hbad]
      rfl
    · have htail := ih hmem2
      rcases qa with ⟨q1, answers1⟩
      rw [calculate_masteryE_cons]
      by_cases he : answers1.isEmpty
      · rw [if_pos he]; exact htail
      · rw [if_neg he]
        cases hex : extractCorrect answers1 with
        | error e => rfl
        | ok bs =>
          cases hms : calculate_masteryE rest with
          | error e => rfl
          | ok ms =>
            rw [hms] at htail
            simp [exceptIsError] at htail

/-- Witness for C8: one record of `"q1"` is missing the flag, so the whole
call errors. -/
theorem calculate_masteryE_malformed_aborts_witness :
    exceptIsError (calculate_masteryE [("q1", [some true, none])]) = true :=
  calculate_masteryE_malformed_aborts [("q1", [some true, none])] "q1"
    [some true, none] (by simp) (by simp)

/-- Counterexample to C8 as stated: with a malformed record for `"q1"`, the
call returns the propagated `KeyError` — not an `InvalidAttemptRecord`
rejection of that record — and the intact history of `"q2"` is never
processed. -/
theorem calculate_masteryE_keyerror_example :
    calculate_masteryE [("q1", [none]), ("q2", [some true])] =
      Except.error "KeyError: is_correct" := rfl

/-! ### Claim C10 -/

/-- C10: `update_review_history` changes only the entry of the given question
id: every other id keeps its old entry, no entry is removed, and for the given
id `review_count` and `total_count` each grow by exactly one while
`correct_count` grows by one exactly when the answer was correct. -/
theorem update_review_history_frame (now : ℤ) (qid : String) (is_correct : Bool)
    (rh : String → Option ReviewState) (q q2 : String) (hq : q ≠ qid) :
    update_review_history now qid is_correct rh q = rh q ∧
    ((rh q2).isSome = true → (update_review_history now qid is_correct rh q2).isSome = true) ∧
    (update_review_history now qid is_correct rh qid).isSome = true ∧
    ((update_review_history now qid is_correct rh qid).getD initReviewState).review_count
      = ((rh qid).getD initReviewState).review_count + 1 ∧
    ((update_review_history now qid is_correct rh qid).getD initReviewState).total_count
      = ((rh qid).getD initReviewState).total_count + 1 ∧
    ((update_review_history now qid is_correct rh qid).getD initReviewState).correct_count
      = ((rh qid).getD initReviewState).correct_count + (if is_correct then 1 else 0) := by
  refine ⟨?_, ?_, ?_, ?_, ?_, ?_⟩
  · simp [update_review_history, hq]
  · intro h
    by_cases hq2 : q2 = qid
    · simp [update_review_history, hq2]
    · simpa [update_review_history, hq2] using h
  · simp [update_review_history]
  · simp [update_review_history]
  · simp [update_review_history]
  · simp [update_review_history]

/-- Witness for C10: updating `"a"` in the empty history leaves `"b"` absent
and gives `"a"` counts `1`, `1`, `1`. -/
theorem update_review_history_frame_witness :
    update_review_history 0 "a" true (fun _ => none) "b" = (fun _ => none) "b" ∧
    (((fun _ => none : String → Option ReviewState) "a").isSome = true →
      (update_review_history 0 "a" true (fun _ => none) "a").isSome = true) ∧
    (update_review_history 0 "a" true (fun _ => none) "a").isSome = true ∧
    ((update_review_history 0 "a" true (fun _ => none) "a").getD initReviewState).review_count
      = (((fun _ => none : String → Option ReviewState) "a").getD initReviewState).review_count + 1 ∧
    ((update_review_history 0 "a" true (fun _ => none) "a").getD initReviewState).total_count
      = (((fun _ => none : String → Option ReviewState) "a").getD initReviewState).total_count + 1 ∧
    ((update_review_history 0 "a" true (fun _ => none) "a").getD initReviewState).correct_count
      = (((fun _ => none : String → Option ReviewState) "a").getD initReviewState).correct_count
        + (if true then 1 else 0) :=
  update_review_history_frame 0 "a" true (fun _ => none) "b" "a" (by decide)

/-! ### Helper lemmas for the quota-based selection -/

lemma length_le_of_nodup_subset {l1 l2 : List ℕ} (h : l1.Nodup) (hs : l1 ⊆ l2) :
    l1.length ≤ l2.length :=
  (h.subperm hs).length_le

lemma topup_nodup (S pool : List ℕ) (n : ℕ) (hS : S.Nodup) (hpool : pool.Nodup) :
    (S ++ (pool.filter (fun i => decide (i ∉ S))).take n).Nodup := by
  refine hS.append (((pool.filter _).take_sublist n).nodup (hpool.filter _)) ?_
  intro x hxS hxT
  have hxF := List.take_subset _ _ hxT
  have := (List.mem_filter.mp hxF).2
  rw [decide_eq_true_eq] at this
  exact this hxS

lemma topup_subset (S pool : List ℕ) (n : ℕ) :
    ∀ x ∈ S ++ (pool.filter (fun i => decide (i ∉ S))).take n, x ∈ S ∨ x ∈ pool := by
  intro x hx
  rcases List.mem_append.mp hx with h | h
  · exact Or.inl h
  · exact Or.inr (List.mem_filter.mp (List.take_subset _ _ h)).1

lemma topup_covers (S pool : List ℕ) (num : ℕ)
    (h : (S ++ (pool.filter (fun i => decide (i ∉ S))).take (num - S.length)).length < num) :
    ∀ x ∈ pool, x ∈ S ++ (pool.filter (fun i => decide (i ∉ S))).take (num - S.length) := by
  intro x hx
  rw [List.length_append, List.length_take] at h
  have hfull : (pool.filter (fun i => decide (i ∉ S))).length ≤ num - S.length := by
    omega
  rw [List.take_of_length_le hfull]
  by_cases hxS : x ∈ S
  · exact List.mem_append.mpr (Or.inl hxS)
  · refine List.mem_append.mpr (Or.inr ?_)
    rw [List.mem_filter, decide_eq_true_eq]
    exact ⟨hx, hxS⟩

lemma quota_core (N OS S0 S1 S2 : List ℕ) (num total : ℕ)
    (hS1 : S1 = S0 ++ (OS.filter (fun i => decide (i ∉ S0))).take (num - S0.length))
    (hS2 : S2 = S1 ++ (N.filter (fun i => decide (i ∉ S1))).take (num - S1.length))
    (hNnd : N.Nodup) (hOSnd : OS.Nodup) (hS0nd : S0.Nodup)
    (hNlt : ∀ x ∈ N, x < total) (hOSlt : ∀ x ∈ OS, x < total)
    (hS0lt : ∀ x ∈ S0, x < total)
    (hcov : ∀ x, x < total → x ∈ N ∨ x ∈ OS) :
    (S2.take num).length = min num total ∧ (S2.take num).Nodup ∧
    (∀ i ∈ S2.take num, i < total) ∧
    (total ≤ num → ∀ i, i < total → i ∈ S2.take num) := by
  have hS1nd : S1.Nodup := hS1 ▸ topup_nodup S0 OS _ hS0nd hOSnd
  have hS1lt : ∀ x ∈ S1, x < total := by
    intro x hx
    rcases topup_subset S0 OS (num - S0.length) x (hS1 ▸ hx) with h | h
    · exact hS0lt x h
    · exact hOSlt x h
  have hS2nd : S2.Nodup := hS2 ▸ topup_nodup S1 N _ hS1nd hNnd
  have hS2lt : ∀ x ∈ S2, x < total := by
    intro x hx
    rcases topup_subset S1 N (num - S1.length) x (hS2 ▸ hx) with h | h
    · exact hS1lt x h
    · exact hNlt x h
  have hS2sub : S2 ⊆ List.range total := fun x hx => List.mem_range.mpr (hS2lt x hx)
  have hS2total : S2.length ≤ total := by
    have := length_le_of_nodup_subset hS2nd hS2sub
    simpa using this
  have hS1S2 : S1.length ≤ S2.length := by
    rw [hS2, List.length_append]
    omega
  have hcovS2 : S2.length < num → ∀ x, x < total → x ∈ S2 := by
    intro hlt x hxt
    have hS1num : S1.length < num := lt_of_le_of_lt hS1S2 hlt
    rcases hcov x hxt with h | h
    · rw [hS2]
      exact topup_covers S1 N num (by rw [← hS2]; exact hlt) x h
    · have hx1 : x ∈ S1 := by
        rw [hS1]
        exact topup_covers S0 OS num (by rw [← hS1]; exact hS1num) x h
      rw [hS2]
      exact List.mem_append.mpr (Or.inl hx1)
  refine ⟨?_, ?_, ?_, ?_⟩
  · rw [List.length_take]
    rcases lt_or_ge S2.length num with hc | hc
    · have hsub2 : List.range total ⊆ S2 := fun x hx => hcovS2 hc x (List.mem_range.mp hx)
      have h2 : total ≤ S2.length := by
        have := length_le_of_nodup_subset (List.nodup_range total) hsub2
        simpa using this
      omega
    · omega
  · exact (List.take_sublist num S2).nodup hS2nd
  · intro i hi
    exact hS2lt i (List.take_subset num S2 hi)
  · intro htn i hit
    have hle : S2.length ≤ num := le_trans hS2total htn
    rw [List.take_of_length_le hle]
    rcases lt_or_ge S2.length num with hc | hc
    · exact hcovS2 hc i hit
    · have hrange : (List.range total).length ≤ S2.length := by
        simpa using le_trans htn hc
      have hperm := (hS2nd.subperm hS2sub).perm_of_length_le hrange
      exact hperm.mem_iff.mpr (List.mem_range.mpr hit)

/-! ### Claim C2 -/

/-- C2: the quota-based selection policy, for any question universe, history
and any `sample`/`shuffle` satisfying the contracts of `random.sample` and
`random.shuffle`: the output has exactly `min num_questions total_questions`
entries, no duplicates, only ids of the universe, and when the universe is
smaller than `num_questions` every available question id is returned (no
error). -/
theorem generate_recommendation_quota (sample : List ℕ → ℕ → List ℕ)
    (shuffle : List ℕ → List ℕ) (hsample : SampleOK sample)
    (hshuffle : ShuffleOK shuffle)
    (total_questions num_questions : ℕ) (user_history : ℕ → Option QStats) :
    (generate_recommendation sample shuffle total_questions num_questions
        user_history).length = min num_questions total_questions ∧
    (generate_recommendation sample shuffle total_questions num_questions
        user_history).Nodup ∧
    (∀ i ∈ generate_recommendation sample shuffle total_questions num_questions
        user_history, i < total_questions) ∧
    (total_questions ≤ num_questions → ∀ i, i < total_questions →
      i ∈ generate_recommendation sample shuffle total_questions num_questions
        user_history) := by
  let N := (List.range total_questions).filter (fun i => (user_history i).isNone)
  let O := (List.range total_questions).filter (fun i => (user_history i).isSome)
  let OS := O.mergeSort (fun i j =>
    statDescLe ((user_history i).getD ⟨0, 0, 0⟩) ((user_history j).getD ⟨0, 0, 0⟩))
  let sn := sample N (min (num_questions * 3 / 5) N.length)
  let S0 := shuffle (sn ++ OS.take (num_questions - num_questions * 3 / 5))
  let S1 := S0 ++ (OS.filter (fun i => decide (i ∉ S0))).take
    (num_questions - S0.length)
  let S2 := S1 ++ (N.filter (fun i => decide (i ∉ S1))).take
    (num_questions - S1.length)
  have hgen : generate_recommendation sample shuffle total_questions num_questions
      user_history = S2.take num_questions := rfl
  rw [hgen]
  have hNnd : N.Nodup := (List.nodup_range total_questions).filter _
  have hOnd : O.Nodup := (List.nodup_range total_questions).filter _
  have hOSperm : OS.Perm O := List.mergeSort_perm O _
  have hOSnd : OS.Nodup := hOSperm.symm.nodup hOnd
  have hNlt : ∀ x ∈ N, x < total_questions := fun x hx =>
    List.mem_range.mp (List.mem_filter.mp hx).1
  have hOlt : ∀ x ∈ O, x < total_questions := fun x hx =>
    List.mem_range.mp (List.mem_filter.mp hx).1
  have hOSlt : ∀ x ∈ OS, x < total_questions := fun x hx =>
    hOlt x (hOSperm.mem_iff.mp hx)
  have hdisj : N.Disjoint O := by
    intro x hxN hxO
    have h1 := (List.mem_filter.mp hxN).2
    have h2 := (List.mem_filter.mp hxO).2
    rcases hu : user_history x with _ | v
    · rw [hu] at h2; simp at h2
    · rw [hu] at h1; simp at h1
  have hsn := hsample N (min (num_questions * 3 / 5) N.length)
    (min_le_right _ _) hNnd
  have hsond : (OS.take (num_questions - num_questions * 3 / 5)).Nodup :=
    (List.take_sublist _ _).nodup hOSnd
  have happ : (sn ++ OS.take (num_questions - num_questions * 3 / 5)).Nodup := by
    refine hsn.2.1.append hsond ?_
    intro x hx1 hx2
    exact hdisj (hsn.2.2 x hx1) (hOSperm.mem_iff.mp (List.take_subset _ _ hx2))
  have hS0nd : S0.Nodup := (hshuffle _).symm.nodup happ
  have hS0lt : ∀ x ∈ S0, x < total_questions := by
    intro x hx
    rcases List.mem_append.mp ((hshuffle _).mem_iff.mp hx) with h | h
    · exact hNlt x (hsn.2.2 x h)
    · exact hOSlt x (List.take_subset _ _ h)
  have hcov : ∀ x, x < total_questions → x ∈ N ∨ x ∈ OS := by
    intro x hx
    rcases hu : user_history x with _ | v
    · exact Or.inl (List.mem_filter.mpr ⟨List.mem_range.mpr hx, by rw [hu]; rfl⟩)
    · refine Or.inr (hOSperm.mem_iff.mpr ?_)
      exact List.mem_filter.mpr ⟨List.mem_range.mpr hx, by rw [hu]; rfl⟩
  exact quota_core N OS S0 S1 S2 num_questions total_questions rfl rfl
    hNnd hOSnd hS0nd hNlt hOSlt hS0lt hcov

/-- Witness for C2 (Scenario B shape): a 20-question universe with 5 attempted
ids, quota 10, with `take` as the sample and the identity shuffle; the theorem
yields an output of exactly `min 10 20 = 10` questions. -/
theorem generate_recommendation_quota_witness :
    (generate_recommendation (fun l k => l.take k) (fun l => l) 20 10
      (fun i => if i < 5 then some ⟨1, 0, 0⟩ else none)).length = min 10 20 :=
  (generate_recommendation_quota (fun l k => l.take k) (fun l => l)
    (fun l k hk hnd => ⟨by rw [List.length_take]; omega,
      (List.take_sublist k l).nodup hnd, fun x hx => List.take_subset _ _ hx⟩)
    (fun l => List.Perm.refl l) 20 10
    (fun i => if i < 5 then some ⟨1, 0, 0⟩ else none)).1

end BKTXhydra
